import Mathlib

set_option maxRecDepth 100000

/-!
Verification of the arc aggregation engine of the exsitu-public repository
(`clusterArcs`, `clusterArcsByCity`, `getArcsByZoomLevel`, `aggregateByCountry`,
`filterArcsByBounds` in the clustering module).

Modelling choices:
* A JavaScript numeric field that may be `undefined`, `null` or `NaN` is
  modelled as `Option ℚ` (`JNum`): `none` stands for any of those three
  values, which behave identically in every operation this module performs
  on them (all `<=`/`>=` comparisons yield `false`, all are falsy, and the
  validity filters exclude exactly the `none` values).
* `Number.prototype.toFixed(2)` is modelled by rounding the rational to two
  decimal places, half away from zero towards plus infinity (`round2`).  The
  code only ever compares the resulting strings for equality, so the model
  keeps the rounded rational itself.  (The single discrepancy — JavaScript
  renders `-0.001` as `"-0.00"`, distinct from `"0.00"` — does not affect
  any statement proved here, and no input exploiting it is used.)
* A JavaScript `Map` (which preserves insertion order and has unique keys)
  is modelled as a list of entries in insertion order, updated in place.
* `Array.prototype.sort` with comparator `(a, b) => b.count - a.count` is a
  stable descending sort by `count`; it is modelled by a stable insertion
  sort, which produces the same (uniquely determined) output sequence.
* `Array.prototype.slice(0, end)` is modelled by `jsSliceEnd`, including the
  negative-`end` behaviour (counting from the end of the array).
-/

/-- A JavaScript number field: `none` models `undefined` / `null` / `NaN`. -/
abbrev JNum := Option ℚ

/-- JavaScript `a <= b` on possibly-invalid numbers: false when either side
is `NaN`/`undefined`/`null`. -/
def jle (a b : JNum) : Bool :=
  match a, b with
  | some x, some y => decide (x ≤ y)
  | _, _ => false

/-- JavaScript `a >= b` on possibly-invalid numbers. -/
def jge (a b : JNum) : Bool :=
  match a, b with
  | some x, some y => decide (y ≤ x)
  | _, _ => false

/-- JavaScript truthiness of a numeric field: `0`, `NaN`, `undefined` and
`null` are falsy. -/
def truthy (a : JNum) : Bool :=
  match a with
  | some x => decide (x ≠ 0)
  | none => false

/-- JavaScript truthiness of an optional string: `undefined`/`null` and the
empty string are falsy. -/
def strTruthy (s : Option String) : Bool :=
  match s with
  | some t => decide (t ≠ "")
  | none => false

/-- JavaScript `s || d` for an optional string `s` and default `d`. -/
def jsStrOr (s : Option String) (d : String) : String :=
  match s with
  | some t => if t = "" then d else t
  | none => d

/-- Floor of a rational, written with `Int.fdiv` (floor division of the
numerator by the positive denominator) so that it reduces in the kernel. -/
def ratFloor (q : ℚ) : ℤ := q.num.fdiv q.den

/-- `x.toFixed(2)` as a rational: round to two decimal places (ties toward
plus infinity, as specified for `toFixed`). -/
def round2 (q : ℚ) : ℚ := (ratFloor (q * 100 + 1/2) : ℚ) / 100

/-- The attribute fields of a `MuseumObject` used by the aggregation engine:
`longitude`/`latitude` are the object's origin, `institution_*` the holding
institution (destination). -/
structure Attributes where
  longitude : JNum
  latitude : JNum
  institution_longitude : JNum
  institution_latitude : JNum
  country_en : Option String
  city_en : Option String
  institution_city_en : Option String
deriving DecidableEq

/-- A record of the dataset (only the fields that the engine reads). -/
structure MuseumObject where
  attributes : Attributes
deriving DecidableEq

/-- The deterministic cluster key: rounded coordinate quadruple at object
level, city-name pair at city level (the TS code encodes both as strings;
the key data itself is kept here). -/
inductive ArcKey where
  | objKey : ℚ → ℚ → ℚ → ℚ → ArcKey
  | cityKey : String → String → ArcKey
deriving DecidableEq

/-- A clustered arc (`ClusteredArc` in the source). -/
structure ClusteredArc where
  id : ArcKey
  sourcePosition : ℚ × ℚ
  targetPosition : ℚ × ℚ
  count : ℕ
  objects : List MuseumObject
  level : String
deriving DecidableEq

/-- The coordinate-validity test shared by `countUniqueArcs`, `clusterArcs`
and `clusterArcsByCity`: all four coordinates present and not `NaN`. -/
def isValidObject (o : MuseumObject) : Bool :=
  o.attributes.institution_longitude.isSome &&
  o.attributes.institution_latitude.isSome &&
  o.attributes.longitude.isSome &&
  o.attributes.latitude.isSome

/-- The arc-eligible records, in input order. -/
def validObjects (objects : List MuseumObject) : List MuseumObject :=
  objects.filter isValidObject

/-- Origin longitude/latitude of a record, as read by the clusterer after
validity filtering (`getD 0` is never reached on valid records). -/
def srcLon (o : MuseumObject) : ℚ := o.attributes.longitude.getD 0
def srcLat (o : MuseumObject) : ℚ := o.attributes.latitude.getD 0
def tgtLon (o : MuseumObject) : ℚ := o.attributes.institution_longitude.getD 0
def tgtLat (o : MuseumObject) : ℚ := o.attributes.institution_latitude.getD 0

/-- The skip test of `clusterArcs`: source and target positions exactly
equal (the code compares the raw coordinates, not the rounded ones). -/
def sameSourceTarget (o : MuseumObject) : Bool :=
  decide (srcLon o = tgtLon o) && decide (srcLat o = tgtLat o)

/-- The object-level cluster key of a valid record: coordinates rounded to
two decimal places. -/
def objKeyOf (o : MuseumObject) : ArcKey :=
  ArcKey.objKey (round2 (srcLon o)) (round2 (srcLat o))
    (round2 (tgtLon o)) (round2 (tgtLat o))

/-- Fold one record into the cluster map (a JS `Map` in insertion order with
unique keys): increment the existing cluster for key `k`, or append a fresh
cluster with `count = 1`. -/
def addToCluster (k : ArcKey) (o : MuseumObject) (src tgt : ℚ × ℚ)
    (lvl : String) : List ClusteredArc → List ClusteredArc
  | [] => [⟨k, src, tgt, 1, [o], lvl⟩]
  | c :: l =>
    if c.id = k then
      { c with count := c.count + 1, objects := c.objects ++ [o] } :: l
    else
      c :: addToCluster k o src tgt lvl l

/-- One step of the object-level clustering loop. -/
def objStep (clusters : List ClusteredArc) (o : MuseumObject) :
    List ClusteredArc :=
  if sameSourceTarget o then clusters
  else
    addToCluster (objKeyOf o) o (srcLon o, srcLat o) (tgtLon o, tgtLat o)
      "object" clusters

/-- The object-level arc list before the size cap (the `Map` contents of
`clusterArcs`, in insertion order). -/
def uncappedArcs (objects : List MuseumObject) : List ClusteredArc :=
  (validObjects objects).foldl objStep []

/-- Stable insertion into a descending-by-`count` list: a new arc goes after
every arc with a count ≥ its own, so earlier-encountered ties stay first. -/
def insertDescByCount (a : ClusteredArc) : List ClusteredArc → List ClusteredArc
  | [] => [a]
  | b :: l => if b.count ≤ a.count then a :: b :: l else b :: insertDescByCount a l

/-- Stable descending sort by `count`: the model of the JS stable
`sort((a, b) => b.count - a.count)`. -/
def sortByCountDesc : List ClusteredArc → List ClusteredArc
  | [] => []
  | a :: l => insertDescByCount a (sortByCountDesc l)

/-- JavaScript `arr.slice(0, e)`, including the negative-`e` case
(`e < 0` counts from the end of the array). -/
def jsSliceEnd (l : List ClusteredArc) (e : ℤ) : List ClusteredArc :=
  if e < 0 then l.take ((l.length : ℤ) + e).toNat else l.take e.toNat

/-- The size-cap step shared verbatim by `clusterArcs` and
`clusterArcsByCity`: when the arc list is longer than `maxArcs`, sort by
`count` descending (stable) and `slice(0, maxArcs)`. -/
def capArcs (arcs : List ClusteredArc) (maxArcs : ℤ) : List ClusteredArc :=
  if maxArcs < (arcs.length : ℤ) then
    jsSliceEnd (sortByCountDesc arcs) maxArcs
  else arcs

/-- `clusterArcs(objects, maxArcs = 2000)`: object-level clustering with the
size cap applied exactly as the code does (`sort` then `slice(0, maxArcs)`
only when `length > maxArcs`). -/
def clusterArcs (objects : List MuseumObject) (maxArcs : ℤ := 2000) :
    List ClusteredArc :=
  capArcs (uncappedArcs objects) maxArcs

/-- The validity filter of `clusterArcsByCity`: valid coordinates and a
truthy `city_en`. -/
def isValidCityObject (o : MuseumObject) : Bool :=
  isValidObject o && strTruthy o.attributes.city_en

/-- One step of the city-level clustering loop. -/
def cityStep (clusters : List ClusteredArc) (o : MuseumObject) :
    List ClusteredArc :=
  let sourceCity := jsStrOr o.attributes.city_en "Unknown"
  let targetCity := jsStrOr o.attributes.institution_city_en "Unknown"
  if sourceCity = "Unknown" ∨ targetCity = "Unknown" ∨ sourceCity = targetCity then
    clusters
  else
    addToCluster (ArcKey.cityKey sourceCity targetCity) o
      (srcLon o, srcLat o) (tgtLon o, tgtLat o) "city" clusters

/-- The city-level arc list before the size cap. -/
def uncappedCityArcs (objects : List MuseumObject) : List ClusteredArc :=
  (objects.filter isValidCityObject).foldl cityStep []

/-- `clusterArcsByCity(objects, maxArcs = 500)`. -/
def clusterArcsByCity (objects : List MuseumObject) (maxArcs : ℤ := 500) :
    List ClusteredArc :=
  capArcs (uncappedCityArcs objects) maxArcs

/-- A viewport bounds rectangle; each component is a `JNum` so that `NaN`
components can be expressed. -/
structure Bounds where
  north : JNum
  south : JNum
  east : JNum
  west : JNum
deriving DecidableEq

/-- The bounds pre-filter of `getArcsByZoomLevel`: the record's origin
latitude/longitude inside the rectangle (inclusive comparisons; false for
any missing/`NaN` operand). -/
def originInBounds (b : Bounds) (o : MuseumObject) : Bool :=
  jge o.attributes.latitude b.south &&
  jle o.attributes.latitude b.north &&
  jge o.attributes.longitude b.west &&
  jle o.attributes.longitude b.east

/-- `getArcsByZoomLevel(objects, zoom = 0, bounds?)`: zoom-band dispatch. -/
def getArcsByZoomLevel (objects : List MuseumObject) (zoom : JNum := some 0)
    (bounds : Option Bounds := none) : List ClusteredArc :=
  if objects.isEmpty then []
  else if jle zoom (some 4) then clusterArcs objects 100
  else if jle zoom (some 8) then clusterArcsByCity objects 500
  else
    let objectsToProcess :=
      match bounds with
      | some b => objects.filter (originInBounds b)
      | none => objects
    let maxArcs : ℤ := if jge zoom (some 12) then 2000 else 1000
    clusterArcs objectsToProcess maxArcs

/-- A country aggregate (`CountryAggregation` in the source): running count,
running pairwise-average centroid, members in insertion order. -/
structure CountryAggregation where
  country : String
  count : ℕ
  latitude : ℚ
  longitude : ℚ
  objects : List MuseumObject
deriving DecidableEq

/-- The country label `aggregateByCountry` reads: `country_en || "Unknown"`. -/
def countryName (o : MuseumObject) : String :=
  jsStrOr o.attributes.country_en "Unknown"

/-- Update one country's aggregate with one record: always increments the
count and appends the member; touches the centroid only when both origin
coordinates are truthy (non-zero, non-missing), seeding it whenever the
running centroid is exactly `(0, 0)` and pairwise-averaging otherwise. -/
def updateAgg (a : CountryAggregation) (o : MuseumObject) :
    CountryAggregation :=
  if truthy o.attributes.latitude && truthy o.attributes.longitude then
    if a.latitude = 0 ∧ a.longitude = 0 then
      { a with
          count := a.count + 1
          objects := a.objects ++ [o]
          latitude := srcLat o
          longitude := srcLon o }
    else
      { a with
          count := a.count + 1
          objects := a.objects ++ [o]
          latitude := (a.latitude + srcLat o) / 2
          longitude := (a.longitude + srcLon o) / 2 }
  else { a with count := a.count + 1, objects := a.objects ++ [o] }

/-- One step of `aggregateByCountry`: skip records whose label resolves to
`"Unknown"`, otherwise create the bucket on first sight (count 0, centroid
`(0,0)`) and update it in place. -/
def aggStep (aggs : List CountryAggregation) (o : MuseumObject) :
    List CountryAggregation :=
  let country := countryName o
  if country = "" ∨ country = "Unknown" then aggs
  else
    let aggs1 :=
      if aggs.any (fun a => a.country = country) then aggs
      else aggs ++ [⟨country, 0, 0, 0, []⟩]
    aggs1.map (fun a => if a.country = country then updateAgg a o else a)

/-- `aggregateByCountry(objects)`: buckets in first-seen order. -/
def aggregateByCountry (objects : List MuseumObject) :
    List CountryAggregation :=
  objects.foldl aggStep []

/-- Sum of `count` over an arc list. -/
def sumCounts (l : List ClusteredArc) : ℕ := (l.map (fun a => a.count)).sum

/-- The centroid transition of `updateAgg`, projected to the
`(latitude, longitude)` pair: untouched unless both origin coordinates are
truthy; seeded whenever the running centroid is exactly `(0, 0)`; otherwise
pairwise-averaged with the new point. -/
def centroidStep (p : ℚ × ℚ) (o : MuseumObject) : ℚ × ℚ :=
  if truthy o.attributes.latitude && truthy o.attributes.longitude then
    if p.1 = 0 ∧ p.2 = 0 then (srcLat o, srcLon o)
    else ((p.1 + srcLat o) / 2, (p.2 + srcLon o) / 2)
  else p

/-- The bucket of the aggregation list for a given country label. -/
def bucketFor (aggs : List CountryAggregation) (c : String) :
    Option CountryAggregation :=
  aggs.find? (fun a => decide (a.country = c))

/-- Modelled from the spec: "no-displacement" in the sense of the spec and
claim wording — origin equal to destination after rounding both to the
two-decimal deduplication precision.  (The source's `clusterArcs` skip test
compares the raw coordinates instead; this definition exists to compare the
two readings.) -/
def specRoundedNoDisplacement (o : MuseumObject) : Bool :=
  decide (round2 (srcLon o) = round2 (tgtLon o)) &&
  decide (round2 (srcLat o) = round2 (tgtLat o))

/-- Modelled from the spec: the centroid computation as the spec and claim
word it — the first valid point seeds the centroid and every subsequent
valid point is folded in by `centroid = (centroid + newPoint) / 2`,
unconditionally.  (The source instead re-seeds whenever the running centroid
is exactly `(0, 0)`; this definition exists to compare the two readings.) -/
def specPairwiseAvgCentroid (points : List (ℚ × ℚ)) : ℚ × ℚ :=
  match points with
  | [] => (0, 0)
  | p :: rest => rest.foldl (fun c q => ((c.1 + q.1) / 2, (c.2 + q.2) / 2)) p

/-- Concrete record: origin `(10, 20)`, destination `(30, 40)`, labelled. -/
def o1 : MuseumObject :=
  ⟨⟨some 10, some 20, some 30, some 40, some "France", some "Paris",
    some "Berlin"⟩⟩

/-- Concrete record identical to `o1` (clusters with it). -/
def o2 : MuseumObject :=
  ⟨⟨some 10, some 20, some 30, some 40, some "France", some "Paris",
    some "Berlin"⟩⟩

/-- Concrete record: origin `(50, 60)`, destination `(70, 80)`. -/
def o3 : MuseumObject :=
  ⟨⟨some 50, some 60, some 70, some 80, some "Italy", some "Rome",
    some "Madrid"⟩⟩

/-- Concrete record with origin exactly equal to destination. -/
def oSame : MuseumObject := ⟨⟨some 5, some 5, some 5, some 5, none, none, none⟩⟩

/-- Concrete record whose origin `(0, 0)` and destination `(1/1000, 0)`
differ, but agree after rounding to two decimal places. -/
def oRound : MuseumObject :=
  ⟨⟨some 0, some 0, some (1/1000), some 0, none, none, none⟩⟩

/-- The single arc `clusterArcs` produces from `[o1]`. -/
def arcO1 : ClusteredArc :=
  ⟨ArcKey.objKey 10 20 30 40, (10, 20), (30, 40), 1, [o1], "object"⟩

/-- France record at origin `(2, 48)` (spec example scenario 3). -/
def fr1 : MuseumObject := ⟨⟨some 2, some 48, none, none, some "France", none, none⟩⟩

/-- France record at origin `(3, 49)` (spec example scenario 3). -/
def fr2 : MuseumObject := ⟨⟨some 3, some 49, none, none, some "France", none, none⟩⟩

/-- The aggregate `aggregateByCountry` produces from `[fr1, fr2]`. -/
def aggFr : CountryAggregation := ⟨"France", 2, 97/2, 5/2, [fr1, fr2]⟩

/-- The aggregate `aggregateByCountry` produces from `[fr1]`. -/
def aggFr1 : CountryAggregation := ⟨"France", 1, 48, 2, [fr1]⟩

/-- France record at origin `(-2, -48)`: averaging it with `fr1`'s seed
brings the running centroid back to exactly `(0, 0)`. -/
def fr3 : MuseumObject :=
  ⟨⟨some (-2), some (-48), none, none, some "France", none, none⟩⟩

/-- France record at origin `(4, 4)`, fed after the centroid returned to
`(0, 0)`. -/
def fr4 : MuseumObject := ⟨⟨some 4, some 4, none, none, some "France", none, none⟩⟩

/-- France record whose origin latitude is exactly `0` (falsy), with a
nonzero longitude. -/
def frZero : MuseumObject :=
  ⟨⟨some 3, some 0, none, none, some "France", none, none⟩⟩

/-- The aggregate `aggregateByCountry` produces from `[frZero]`: the zero
latitude keeps the centroid at `(0, 0)`. -/
def aggFrZero : CountryAggregation := ⟨"France", 1, 0, 0, [frZero]⟩

/-- Concrete valid displaced record: origin `(1, 1)`, destination `(2, 2)`. -/
def r7 : MuseumObject := ⟨⟨some 1, some 1, some 2, some 2, none, none, none⟩⟩

/-- Bounds with a `NaN` south component. -/
def bNaN : Bounds := ⟨some 10, none, some 10, some 0⟩

/-- Folding one record into the cluster map produces: an untouched old
cluster, an old cluster with the record appended and count bumped, or the
fresh singleton cluster. -/
theorem addToCluster_mem {k : ArcKey} {o : MuseumObject} {src tgt : ℚ × ℚ}
    {lvl : String} :
    ∀ {l : List ClusteredArc} {a : ClusteredArc},
      a ∈ addToCluster k o src tgt lvl l →
      a ∈ l ∨
        (∃ c, c ∈ l ∧
          a = { c with count := c.count + 1, objects := c.objects ++ [o] }) ∨
        a = ⟨k, src, tgt, 1, [o], lvl⟩ := by
  intro l
  induction l with
  | nil =>
      intro a ha
      simp only [addToCluster, List.mem_singleton] at ha
      exact Or.inr (Or.inr ha)
  | cons c l ih =>
      intro a ha
      simp only [addToCluster] at ha
      by_cases hck : c.id = k
      · rw [if_pos hck] at ha
        rcases List.mem_cons.mp ha with h | h
        · exact Or.inr (Or.inl ⟨c, List.mem_cons_self c l, h⟩)
        · exact Or.inl (List.mem_cons_of_mem c h)
      · rw [if_neg hck] at ha
        rcases List.mem_cons.mp ha with h | h
        · exact Or.inl (h ▸ List.mem_cons_self c l)
        · rcases ih h with h' | ⟨c', hc', he⟩ | h'
          · exact Or.inl (List.mem_cons_of_mem c h')
          · exact Or.inr (Or.inl ⟨c', List.mem_cons_of_mem c hc', he⟩)
          · exact Or.inr (Or.inr h')

/-- `sumCounts` of a cons. -/
theorem sumCounts_cons (c : ClusteredArc) (l : List ClusteredArc) :
    sumCounts (c :: l) = c.count + sumCounts l := by
  simp [sumCounts]

/-- Folding one record into the cluster map adds exactly one to the total
count. -/
theorem sumCounts_addToCluster (k : ArcKey) (o : MuseumObject)
    (src tgt : ℚ × ℚ) (lvl : String) :
    ∀ l : List ClusteredArc,
      sumCounts (addToCluster k o src tgt lvl l) = sumCounts l + 1 := by
  intro l
  induction l with
  | nil => simp [addToCluster, sumCounts]
  | cons c l ih =>
      simp only [addToCluster]
      by_cases hck : c.id = k
      · rw [if_pos hck, sumCounts_cons, sumCounts_cons]
        show c.count + 1 + sumCounts l = c.count + sumCounts l + 1
        omega
      · rw [if_neg hck, sumCounts_cons, sumCounts_cons, ih]
        omega

/-- Invariant preservation through a clustering fold: if every arc the step
function can produce from invariant-satisfying state satisfies the
invariant, so does every arc of the fold's result. -/
theorem foldl_arcs_inv (f : List ClusteredArc → MuseumObject → List ClusteredArc)
    (P : ClusteredArc → Prop)
    (hstep : ∀ l o a, (∀ x ∈ l, P x) → a ∈ f l o → P a) :
    ∀ (os : List MuseumObject) (l : List ClusteredArc),
      (∀ x ∈ l, P x) → ∀ a ∈ os.foldl f l, P a := by
  intro os
  induction os with
  | nil => intro l h a ha; exact h a ha
  | cons o os ih =>
      intro l h a ha
      simp only [List.foldl_cons] at ha
      exact ih (f l o) (fun x hx => hstep l o x h hx) a ha

/-- `objStep` preserves the arc invariant `count = |members| ∧ 1 ≤ count`. -/
theorem objStep_count_inv :
    ∀ (l : List ClusteredArc) (o : MuseumObject) (a : ClusteredArc),
      (∀ x ∈ l, x.count = x.objects.length ∧ 1 ≤ x.count) →
      a ∈ objStep l o → a.count = a.objects.length ∧ 1 ≤ a.count := by
  intro l o a h ha
  simp only [objStep] at ha
  by_cases hs : sameSourceTarget o
  · rw [if_pos hs] at ha; exact h a ha
  · rw [if_neg hs] at ha
    rcases addToCluster_mem ha with h' | ⟨c, hc, he⟩ | h'
    · exact h a h'
    · subst he
      obtain ⟨h1, h2⟩ := h c hc
      refine ⟨?_, ?_⟩
      · show c.count + 1 = (c.objects ++ [o]).length
        simp [h1]
      · show 1 ≤ c.count + 1
        omega
    · subst h'; simp

/-- `cityStep` preserves the arc invariant `count = |members| ∧ 1 ≤ count`. -/
theorem cityStep_count_inv :
    ∀ (l : List ClusteredArc) (o : MuseumObject) (a : ClusteredArc),
      (∀ x ∈ l, x.count = x.objects.length ∧ 1 ≤ x.count) →
      a ∈ cityStep l o → a.count = a.objects.length ∧ 1 ≤ a.count := by
  intro l o a h ha
  simp only [cityStep] at ha
  by_cases hs : jsStrOr o.attributes.city_en "Unknown" = "Unknown" ∨
      jsStrOr o.attributes.institution_city_en "Unknown" = "Unknown" ∨
      jsStrOr o.attributes.city_en "Unknown" =
        jsStrOr o.attributes.institution_city_en "Unknown"
  · rw [if_pos hs] at ha; exact h a ha
  · rw [if_neg hs] at ha
    rcases addToCluster_mem ha with h' | ⟨c, hc, he⟩ | h'
    · exact h a h'
    · subst he
      obtain ⟨h1, h2⟩ := h c hc
      refine ⟨?_, ?_⟩
      · show c.count + 1 = (c.objects ++ [o]).length
        simp [h1]
      · show 1 ≤ c.count + 1
        omega
    · subst h'; simp

/-- Every arc of the uncapped object-level cluster list satisfies
`count = |members| ∧ 1 ≤ count`. -/
theorem uncappedArcs_count_inv (objects : List MuseumObject) :
    ∀ a ∈ uncappedArcs objects, a.count = a.objects.length ∧ 1 ≤ a.count := by
  intro a ha
  exact foldl_arcs_inv objStep _ objStep_count_inv (validObjects objects) []
    (by intro x hx; simp at hx) a ha

/-- Every arc of the uncapped city-level cluster list satisfies
`count = |members| ∧ 1 ≤ count`. -/
theorem uncappedCityArcs_count_inv (objects : List MuseumObject) :
    ∀ a ∈ uncappedCityArcs objects,
      a.count = a.objects.length ∧ 1 ≤ a.count := by
  intro a ha
  exact foldl_arcs_inv cityStep _ cityStep_count_inv
    (objects.filter isValidCityObject) [] (by intro x hx; simp at hx) a ha

/-- `objStep` only ever adds members whose source and target differ. -/
theorem objStep_members_inv :
    ∀ (l : List ClusteredArc) (o : MuseumObject) (a : ClusteredArc),
      (∀ x ∈ l, ∀ m ∈ x.objects, sameSourceTarget m = false) →
      a ∈ objStep l o → ∀ m ∈ a.objects, sameSourceTarget m = false := by
  intro l o a h ha
  simp only [objStep] at ha
  by_cases hs : sameSourceTarget o
  · rw [if_pos hs] at ha; exact h a ha
  · rw [if_neg hs] at ha
    rcases addToCluster_mem ha with h' | ⟨c, hc, he⟩ | h'
    · exact h a h'
    · subst he
      intro m hm
      simp only [List.mem_append, List.mem_singleton] at hm
      rcases hm with hm | hm
      · exact h c hc m hm
      · subst hm; exact Bool.eq_false_iff.mpr hs
    · subst h'
      intro m hm
      simp only [List.mem_singleton] at hm
      subst hm; exact Bool.eq_false_iff.mpr hs

/-- Every member of every uncapped object-level arc has source ≠ target
(the exact, unrounded skip test of the code). -/
theorem uncappedArcs_members_inv (objects : List MuseumObject) :
    ∀ a ∈ uncappedArcs objects, ∀ m ∈ a.objects,
      sameSourceTarget m = false := by
  intro a ha
  exact foldl_arcs_inv objStep _ objStep_members_inv (validObjects objects) []
    (by intro x hx; simp at hx) a ha

/-- The total count accumulated by the object-level fold is the number of
records that pass the displacement test. -/
theorem sumCounts_foldl_objStep :
    ∀ (os : List MuseumObject) (l : List ClusteredArc),
      sumCounts (os.foldl objStep l) =
        sumCounts l + (os.filter (fun o => !sameSourceTarget o)).length := by
  intro os
  induction os with
  | nil => intro l; simp
  | cons o os ih =>
      intro l
      simp only [List.foldl_cons, List.filter_cons]
      rw [ih (objStep l o)]
      by_cases hs : sameSourceTarget o = true
      · simp only [objStep, if_pos hs, hs, Bool.not_true]
        simp
      · have hs' : sameSourceTarget o = false := Bool.eq_false_iff.mpr hs
        simp only [objStep, hs', Bool.false_eq_true, if_false, Bool.not_false,
          if_true, List.length_cons, sumCounts_addToCluster]
        omega

/-- Stable insertion is a permutation of consing. -/
theorem insertDescByCount_perm (a : ClusteredArc) (l : List ClusteredArc) :
    (insertDescByCount a l).Perm (a :: l) := by
  induction l with
  | nil => simp [insertDescByCount]
  | cons b l ih =>
      simp only [insertDescByCount]
      by_cases hb : b.count ≤ a.count
      · rw [if_pos hb]
      · rw [if_neg hb]
        exact (ih.cons b).trans (List.Perm.swap a b l)

/-- The stable sort is a permutation of its input. -/
theorem sortByCountDesc_perm (l : List ClusteredArc) :
    (sortByCountDesc l).Perm l := by
  induction l with
  | nil => simp [sortByCountDesc]
  | cons a l ih =>
      exact (insertDescByCount_perm a (sortByCountDesc l)).trans (ih.cons a)

/-- Stable insertion keeps a descending-by-`count` list descending. -/
theorem insertDescByCount_sorted {a : ClusteredArc} {l : List ClusteredArc}
    (h : l.Pairwise (fun x y => y.count ≤ x.count)) :
    (insertDescByCount a l).Pairwise (fun x y => y.count ≤ x.count) := by
  induction l with
  | nil => simp [insertDescByCount]
  | cons b l ih =>
      rcases List.pairwise_cons.mp h with ⟨hb, hl⟩
      simp only [insertDescByCount]
      by_cases hba : b.count ≤ a.count
      · rw [if_pos hba]
        refine List.pairwise_cons.mpr ⟨?_, h⟩
        intro y hy
        rcases List.mem_cons.mp hy with hy | hy
        · exact hy ▸ hba
        · exact le_trans (hb y hy) hba
      · rw [if_neg hba]
        refine List.pairwise_cons.mpr ⟨?_, ih hl⟩
        intro y hy
        have hy' : y ∈ a :: l := (insertDescByCount_perm a l).mem_iff.mp hy
        rcases List.mem_cons.mp hy' with he | hyl
        · rw [he]
          exact le_of_lt (lt_of_not_le hba)
        · exact hb y hyl

/-- The stable sort output is descending by `count`. -/
theorem sortByCountDesc_sorted (l : List ClusteredArc) :
    (sortByCountDesc l).Pairwise (fun x y => y.count ≤ x.count) := by
  induction l with
  | nil => simp [sortByCountDesc]
  | cons a l ih => exact insertDescByCount_sorted ih

/-- Stable insertion and filtering by an exact count commute: the inserted
arc lands in front of the equal-count arcs already present. -/
theorem insertDescByCount_filter (a : ClusteredArc) (c : ℕ) :
    ∀ l : List ClusteredArc,
      (insertDescByCount a l).filter (fun x => decide (x.count = c)) =
        if a.count = c then
          a :: l.filter (fun x => decide (x.count = c))
        else l.filter (fun x => decide (x.count = c)) := by
  intro l
  induction l with
  | nil =>
      simp only [insertDescByCount, List.filter]
      by_cases hac : a.count = c
      · simp [hac]
      · simp [hac]
  | cons b l ih =>
      simp only [insertDescByCount]
      by_cases hba : b.count ≤ a.count
      · rw [if_pos hba]
        by_cases hac : a.count = c
        · simp [List.filter_cons, hac]
        · simp [List.filter_cons, hac]
      · rw [if_neg hba]
        have hblt : a.count < b.count := lt_of_not_le hba
        by_cases hac : a.count = c
        · have hbc : ¬ b.count = c := by omega
          simp [List.filter_cons, hbc, ih, hac]
        · by_cases hbc : b.count = c
          · simp [List.filter_cons, hbc, ih, hac]
          · simp [List.filter_cons, hbc, ih, hac]

/-- Stability of the sort: arcs of any fixed `count` appear in the sorted
list in their original relative order. -/
theorem sortByCountDesc_filter (c : ℕ) :
    ∀ l : List ClusteredArc,
      (sortByCountDesc l).filter (fun x => decide (x.count = c)) =
        l.filter (fun x => decide (x.count = c)) := by
  intro l
  induction l with
  | nil => simp [sortByCountDesc]
  | cons a l ih =>
      simp only [sortByCountDesc]
      rw [insertDescByCount_filter a c (sortByCountDesc l), List.filter_cons]
      by_cases hac : a.count = c
      · simp [hac, ih]
      · simp [hac, ih]

/-- `jsSliceEnd` returns a prefix-style selection of its input. -/
theorem jsSliceEnd_subset {l : List ClusteredArc} {e : ℤ} {a : ClusteredArc}
    (h : a ∈ jsSliceEnd l e) : a ∈ l := by
  simp only [jsSliceEnd] at h
  by_cases he : e < 0
  · rw [if_pos he] at h
    exact List.take_subset _ _ h
  · rw [if_neg he] at h
    exact List.take_subset _ _ h

/-- Nonnegative end index: `jsSliceEnd` is a plain `take`. -/
theorem jsSliceEnd_nonneg {l : List ClusteredArc} {e : ℤ} (he : 0 ≤ e) :
    jsSliceEnd l e = l.take e.toNat := by
  simp only [jsSliceEnd, if_neg (not_lt.mpr he)]

/-- Every arc of a capped list comes from the uncapped list. -/
theorem capArcs_mem {arcs : List ClusteredArc} {k : ℤ} {a : ClusteredArc}
    (h : a ∈ capArcs arcs k) : a ∈ arcs := by
  simp only [capArcs] at h
  by_cases hk : k < (arcs.length : ℤ)
  · rw [if_pos hk] at h
    exact (sortByCountDesc_perm arcs).mem_iff.mp (jsSliceEnd_subset h)
  · rw [if_neg hk] at h
    exact h

/-- With a positive cap, the capped list has at most `k` arcs. -/
theorem capArcs_length {arcs : List ClusteredArc} {k : ℤ} (hk : 0 < k) :
    ((capArcs arcs k).length : ℤ) ≤ k := by
  simp only [capArcs]
  by_cases hlen : k < (arcs.length : ℤ)
  · rw [if_pos hlen, jsSliceEnd_nonneg (le_of_lt hk), List.length_take]
    have h1 : ((k.toNat ⊓ (sortByCountDesc arcs).length : ℕ) : ℤ) ≤
        (k.toNat : ℤ) := by
      exact_mod_cast Nat.min_le_left _ _
    rwa [Int.toNat_of_nonneg (le_of_lt hk)] at h1
  · rw [if_neg hlen]
    omega

/-- When the uncapped list exceeds a nonnegative cap, the capped list is the
`k`-prefix of the stable descending sort. -/
theorem capArcs_of_lt {arcs : List ClusteredArc} {k : ℤ} (h0 : 0 ≤ k)
    (h : k < (arcs.length : ℤ)) :
    capArcs arcs k = (sortByCountDesc arcs).take k.toNat := by
  simp only [capArcs, if_pos h]
  exact jsSliceEnd_nonneg h0

/-- `updateAgg` never changes the bucket's country label. -/
theorem updateAgg_country (a : CountryAggregation) (o : MuseumObject) :
    (updateAgg a o).country = a.country := by
  simp only [updateAgg]
  split
  · split <;> rfl
  · rfl

/-- `updateAgg` always increments the count. -/
theorem updateAgg_count (a : CountryAggregation) (o : MuseumObject) :
    (updateAgg a o).count = a.count + 1 := by
  simp only [updateAgg]
  split
  · split <;> rfl
  · rfl

/-- `updateAgg` always appends the record to the members. -/
theorem updateAgg_objects (a : CountryAggregation) (o : MuseumObject) :
    (updateAgg a o).objects = a.objects ++ [o] := by
  simp only [updateAgg]
  split
  · split <;> rfl
  · rfl

/-- The centroid component of `updateAgg` is exactly `centroidStep`. -/
theorem updateAgg_centroid (a : CountryAggregation) (o : MuseumObject) :
    ((updateAgg a o).latitude, (updateAgg a o).longitude) =
      centroidStep (a.latitude, a.longitude) o := by
  simp only [updateAgg, centroidStep]
  split
  · split <;> rfl
  · rfl

/-- Folding records into one bucket preserves its country label. -/
theorem foldl_updateAgg_country :
    ∀ (l : List MuseumObject) (a : CountryAggregation),
      (l.foldl updateAgg a).country = a.country := by
  intro l
  induction l with
  | nil => intro a; rfl
  | cons o l ih => intro a; rw [List.foldl_cons, ih, updateAgg_country]

/-- Folding records into one bucket adds their number to the count. -/
theorem foldl_updateAgg_count :
    ∀ (l : List MuseumObject) (a : CountryAggregation),
      (l.foldl updateAgg a).count = a.count + l.length := by
  intro l
  induction l with
  | nil => intro a; rfl
  | cons o l ih =>
      intro a
      rw [List.foldl_cons, ih, updateAgg_count, List.length_cons]
      omega

/-- Folding records into one bucket appends them to the members. -/
theorem foldl_updateAgg_objects :
    ∀ (l : List MuseumObject) (a : CountryAggregation),
      (l.foldl updateAgg a).objects = a.objects ++ l := by
  intro l
  induction l with
  | nil => intro a; simp
  | cons o l ih =>
      intro a
      rw [List.foldl_cons, ih, updateAgg_objects, List.append_assoc,
        List.singleton_append]

/-- The centroid of a bucket fold is the `centroidStep` fold of the same
records. -/
theorem foldl_updateAgg_centroid :
    ∀ (l : List MuseumObject) (a : CountryAggregation),
      ((l.foldl updateAgg a).latitude, (l.foldl updateAgg a).longitude) =
        l.foldl centroidStep (a.latitude, a.longitude) := by
  intro l
  induction l with
  | nil => intro a; rfl
  | cons o l ih =>
      intro a
      rw [List.foldl_cons, ih, updateAgg_centroid, List.foldl_cons]

/-- `find?` over a country-preserving map commutes with the map. -/
theorem find?_country_map (upd : CountryAggregation → CountryAggregation)
    (hpres : ∀ a, (upd a).country = a.country) (c : String) :
    ∀ l : List CountryAggregation,
      (l.map upd).find? (fun a => decide (a.country = c)) =
        Option.map upd (l.find? (fun a => decide (a.country = c))) := by
  intro l
  induction l with
  | nil => rfl
  | cons a l ih =>
      simp only [List.map_cons, List.find?_cons]
      by_cases hac : a.country = c
      · simp [hpres, hac]
      · simp [hpres, hac, ih]

/-- `find?` skips over a left part in which nothing matches. -/
theorem find?_append_of_none {α : Type} (p : α → Bool) :
    ∀ (l l' : List α), l.find? p = none → (l ++ l').find? p = l'.find? p := by
  intro l
  induction l with
  | nil => intro l' _; rfl
  | cons a l ih =>
      intro l' h
      cases hp : p a with
      | true =>
          simp only [List.find?_cons, hp] at h
          exact absurd h (by simp)
      | false =>
          simp only [List.find?_cons, hp] at h
          simp only [List.cons_append, List.find?_cons, hp]
          exact ih l' h

/-- Appending a non-matching element does not change `find?`. -/
theorem find?_append_single {α : Type} (p : α → Bool) (x : α)
    (hx : ¬ p x = true) :
    ∀ l : List α, (l ++ [x]).find? p = l.find? p := by
  intro l
  induction l with
  | nil =>
      have hx' : p x = false := Bool.eq_false_iff.mpr hx
      simp only [List.nil_append, List.find?_cons, hx']
  | cons a l ih =>
      cases hp : p a with
      | true => simp only [List.cons_append, List.find?_cons, hp]
      | false => simp only [List.cons_append, List.find?_cons, hp, ih]

/-- How one `aggStep` changes the bucket of a fixed real country label `c`:
records of that country update (or create) exactly that bucket, all other
records leave it alone. -/
theorem bucketFor_aggStep (aggs : List CountryAggregation) (o : MuseumObject)
    (c : String) (hc1 : c ≠ "") (hc2 : c ≠ "Unknown") :
    bucketFor (aggStep aggs o) c =
      if countryName o = c then
        some (updateAgg ((bucketFor aggs c).getD ⟨c, 0, 0, 0, []⟩) o)
      else bucketFor aggs c := by
  by_cases hskip : countryName o = "" ∨ countryName o = "Unknown"
  · have hne : ¬ countryName o = c := by
      intro he
      rcases hskip with h | h
      · exact hc1 (he.symm.trans h)
      · exact hc2 (he.symm.trans h)
    rw [if_neg hne]
    simp only [aggStep, if_pos hskip]
  · simp only [aggStep, if_neg hskip]
    have hpres : ∀ a : CountryAggregation,
        ((fun a => if a.country = countryName o then updateAgg a o else a) a).country
          = a.country := by
      intro a
      by_cases h : a.country = countryName o
      · simp [h, updateAgg_country]
      · simp [h]
    simp only [bucketFor]
    rw [find?_country_map _ hpres c]
    by_cases hmatch : countryName o = c
    · rw [if_pos hmatch]
      by_cases hany : aggs.any (fun a => decide (a.country = countryName o)) = true
      · rw [if_pos hany]
        rcases List.any_eq_true.mp hany with ⟨b, hbmem, hpb⟩
        have hsome : (aggs.find? (fun a => decide (a.country = c))).isSome :=
          List.find?_isSome.mpr ⟨b, hbmem, by simpa [hmatch] using hpb⟩
        obtain ⟨b2, hb2⟩ := Option.isSome_iff_exists.mp hsome
        have hb2c : b2.country = c := by simpa using List.find?_some hb2
        rw [hb2]
        simp [hb2c, hmatch]
      · rw [if_neg hany]
        have hanyf : ∀ x ∈ aggs, ¬ (decide (x.country = countryName o) = true) := by
          intro x hx
          exact fun hpx => hany (List.any_eq_true.mpr ⟨x, hx, hpx⟩)
        have hnonec : aggs.find? (fun a => decide (a.country = c)) = none := by
          refine List.find?_eq_none.mpr ?_
          intro x hx
          have := hanyf x hx
          simpa [hmatch] using this
        rw [find?_append_of_none _ _ _ hnonec, hnonec]
        simp [List.find?_cons, hmatch]
    · rw [if_neg hmatch]
      have hfr : ¬ (decide
          ((⟨countryName o, 0, 0, 0, []⟩ : CountryAggregation).country = c) = true) := by
        simp [hmatch]
      have haggs1 :
          (if aggs.any (fun a => decide (a.country = countryName o)) = true then aggs
            else aggs ++ [⟨countryName o, 0, 0, 0, []⟩]).find?
              (fun a => decide (a.country = c)) =
            aggs.find? (fun a => decide (a.country = c)) := by
        by_cases hany : aggs.any (fun a => decide (a.country = countryName o)) = true
        · rw [if_pos hany]
        · rw [if_neg hany]
          exact find?_append_single
            (fun a : CountryAggregation => decide (a.country = c))
            ⟨countryName o, 0, 0, 0, []⟩ hfr aggs
      rw [haggs1]
      rcases hfind : aggs.find? (fun a => decide (a.country = c)) with _ | b
      · rw [hfind]
        simp
      · have hbc : b.country = c := by simpa using List.find?_some hfind
        have hnc : ¬ (b.country = countryName o) := by
          rw [hbc]
          exact fun h => hmatch h.symm
        rw [hfind]
        simp [hnc]

/-- The bucket of country `c` after the whole aggregation fold is obtained
by folding exactly the records labelled `c`, in order, over an optional
accumulator that is seeded with the empty bucket on first use. -/
theorem bucketFor_foldl (c : String) (hc1 : c ≠ "") (hc2 : c ≠ "Unknown") :
    ∀ (objects : List MuseumObject) (aggs : List CountryAggregation),
      bucketFor (objects.foldl aggStep aggs) c =
        (objects.filter (fun o => decide (countryName o = c))).foldl
          (fun acc o => some (updateAgg (acc.getD ⟨c, 0, 0, 0, []⟩) o))
          (bucketFor aggs c) := by
  intro objects
  induction objects with
  | nil => intro aggs; rfl
  | cons o os ih =>
      intro aggs
      simp only [List.foldl_cons, List.filter_cons]
      rw [ih (aggStep aggs o), bucketFor_aggStep aggs o c hc1 hc2]
      by_cases hoc : countryName o = c
      · rw [if_pos hoc]
        simp [hoc]
      · rw [if_neg hoc]
        simp [hoc]

/-- Folding through a `some`-valued optional accumulator is a plain fold. -/
theorem optFoldl_some (c : String) :
    ∀ (l : List MuseumObject) (a : CountryAggregation),
      l.foldl (fun acc o => some (updateAgg (acc.getD ⟨c, 0, 0, 0, []⟩) o))
          (some a) =
        some (l.foldl updateAgg a) := by
  intro l
  induction l with
  | nil => intro a; rfl
  | cons o l ih =>
      intro a
      simp only [List.foldl_cons, Option.getD_some]
      exact ih (updateAgg a o)

/-- A nonempty record list folded from `none` seeds the empty bucket first. -/
theorem optFoldl_none (c : String) :
    ∀ l : List MuseumObject, l ≠ [] →
      l.foldl (fun acc o => some (updateAgg (acc.getD ⟨c, 0, 0, 0, []⟩) o))
          none =
        some (l.foldl updateAgg ⟨c, 0, 0, 0, []⟩) := by
  intro l hl
  cases l with
  | nil => exact absurd rfl hl
  | cons o l =>
      simp only [List.foldl_cons, Option.getD_none]
      exact optFoldl_some c l (updateAgg ⟨c, 0, 0, 0, []⟩ o)

/-- State invariant preservation through the aggregation fold. -/
theorem foldl_aggs_state_inv (P : List CountryAggregation → Prop)
    (hstep : ∀ s o, P s → P (aggStep s o)) :
    ∀ (os : List MuseumObject) (s : List CountryAggregation),
      P s → P (os.foldl aggStep s) := by
  intro os
  induction os with
  | nil => intro s h; exact h
  | cons o os ih =>
      intro s h
      simp only [List.foldl_cons]
      exact ih (aggStep s o) (hstep s o h)

/-- `aggStep` preserves distinctness of the bucket labels, and that every
label is a real country (neither empty nor `"Unknown"`). -/
theorem aggStep_label_inv (s : List CountryAggregation) (o : MuseumObject)
    (h : (s.map (fun a => a.country)).Nodup ∧
      ∀ a ∈ s, a.country ≠ "" ∧ a.country ≠ "Unknown") :
    ((aggStep s o).map (fun a => a.country)).Nodup ∧
      ∀ a ∈ aggStep s o, a.country ≠ "" ∧ a.country ≠ "Unknown" := by
  obtain ⟨hnd, hall⟩ := h
  by_cases hskip : countryName o = "" ∨ countryName o = "Unknown"
  · simpa only [aggStep, if_pos hskip] using ⟨hnd, hall⟩
  · simp only [aggStep, if_neg hskip]
    push_neg at hskip
    obtain ⟨hcn1, hcn2⟩ := hskip
    have hpres : ∀ a : CountryAggregation,
        ((fun a => if a.country = countryName o then updateAgg a o else a) a).country
          = a.country := by
      intro a
      by_cases hac : a.country = countryName o
      · simp [hac, updateAgg_country]
      · simp [hac]
    have hmapmap : ∀ l : List CountryAggregation,
        (l.map (fun a => if a.country = countryName o then updateAgg a o else a)).map
            (fun a => a.country) =
          l.map (fun a => a.country) := by
      intro l
      rw [List.map_map]
      exact List.map_congr_left (fun a _ => hpres a)
    by_cases hany : s.any (fun a => decide (a.country = countryName o)) = true
    · rw [if_pos hany]
      constructor
      · rw [hmapmap]
        exact hnd
      · intro a ha
        rcases List.mem_map.mp ha with ⟨b, hb, hba⟩
        have : a.country = b.country := by rw [← hba]; exact hpres b
        rw [this]
        exact hall b hb
    · rw [if_neg hany]
      constructor
      · rw [hmapmap, List.map_append]
        simp only [List.map_cons, List.map_nil]
        rw [List.nodup_append]
        refine ⟨hnd, List.nodup_singleton _, ?_⟩
        intro x hx
        simp only [List.mem_singleton]
        intro hxc
        rcases List.mem_map.mp hx with ⟨b, hb, hbx⟩
        apply hany
        refine List.any_eq_true.mpr ⟨b, hb, ?_⟩
        simp [hbx, hxc]
      · intro a ha
        rcases List.mem_map.mp ha with ⟨b, hb, hba⟩
        have hcountry : a.country = b.country := by rw [← hba]; exact hpres b
        rcases List.mem_append.mp hb with hb' | hb'
        · rw [hcountry]
          exact hall b hb'
        · simp only [List.mem_singleton] at hb'
          rw [hcountry, hb']
          exact ⟨hcn1, hcn2⟩

/-- The aggregation result has pairwise-distinct real country labels. -/
theorem aggregateByCountry_label_inv (objects : List MuseumObject) :
    ((aggregateByCountry objects).map (fun a => a.country)).Nodup ∧
      ∀ a ∈ aggregateByCountry objects,
        a.country ≠ "" ∧ a.country ≠ "Unknown" := by
  refine foldl_aggs_state_inv _ aggStep_label_inv objects [] ?_
  constructor
  · simp
  · intro a ha
    exact absurd ha (List.not_mem_nil a)

/-- With distinct labels, membership pins down the bucket lookup. -/
theorem bucketFor_of_mem :
    ∀ (aggs : List CountryAggregation) (a : CountryAggregation),
      (aggs.map (fun x => x.country)).Nodup → a ∈ aggs →
      bucketFor aggs a.country = some a := by
  intro aggs
  induction aggs with
  | nil => intro a _ ha; exact absurd ha (List.not_mem_nil a)
  | cons b l ih =>
      intro a hnd ha
      have hnd' := hnd
      rw [List.map_cons, List.nodup_cons] at hnd'
      obtain ⟨hbnot, hltail⟩ := hnd'
      by_cases hba : b.country = a.country
      · rcases List.mem_cons.mp ha with he | hal
        · rw [he]
          simp [bucketFor, List.find?_cons]
        · exfalso
          apply hbnot
          rw [hba]
          exact List.mem_map.mpr ⟨a, hal, rfl⟩
      · have hal : a ∈ l := by
          rcases List.mem_cons.mp ha with he | hal
          · exact absurd (show b.country = a.country by rw [he]) hba
          · exact hal
        simp only [bucketFor, List.find?_cons]
        have : decide (b.country = a.country) = false := by
          simp [hba]
        rw [this]
        exact ih a hltail hal

/-- Characterization of every aggregate produced by `aggregateByCountry`:
its label is a real country, its members are exactly the input records
labelled with it (in input order), its count is the member count, and its
centroid is the `centroidStep` fold of its members. -/
theorem aggregateByCountry_mem_char {objects : List MuseumObject}
    {a : CountryAggregation} (ha : a ∈ aggregateByCountry objects) :
    a.country ≠ "" ∧ a.country ≠ "Unknown" ∧
    a.objects = objects.filter (fun o => decide (countryName o = a.country)) ∧
    a.count = a.objects.length ∧
    (a.latitude, a.longitude) = a.objects.foldl centroidStep (0, 0) := by
  obtain ⟨hnd, hall⟩ := aggregateByCountry_label_inv objects
  obtain ⟨hc1, hc2⟩ := hall a ha
  have hbucket : bucketFor (aggregateByCountry objects) a.country = some a :=
    bucketFor_of_mem _ a hnd ha
  have hfold := bucketFor_foldl a.country hc1 hc2 objects []
  have h0 : bucketFor ([] : List CountryAggregation) a.country = none := rfl
  rw [h0] at hfold
  have hbucket2 :
      (objects.filter (fun o => decide (countryName o = a.country))).foldl
        (fun acc o => some (updateAgg (acc.getD ⟨a.country, 0, 0, 0, []⟩) o))
        none = some a := by
    rw [← hfold]
    exact hbucket
  set l := objects.filter (fun o => decide (countryName o = a.country)) with hl
  by_cases hln : l = []
  · rw [hln] at hbucket2
    simp at hbucket2
  · rw [optFoldl_none a.country l hln] at hbucket2
    have ha2 : a = l.foldl updateAgg ⟨a.country, 0, 0, 0, []⟩ :=
      (Option.some.inj hbucket2).symm
    have hobj : a.objects = l := by
      conv_lhs => rw [ha2]
      rw [foldl_updateAgg_objects]
      simp
    have hcount : a.count = l.length := by
      conv_lhs => rw [ha2]
      rw [foldl_updateAgg_count]
      simp
    have hcent : (a.latitude, a.longitude) = l.foldl centroidStep (0, 0) := by
      conv_lhs => rw [ha2]
      rw [foldl_updateAgg_centroid]
    refine ⟨hc1, hc2, hobj, ?_, ?_⟩
    · rw [hobj]
      exact hcount
    · rw [hobj]
      exact hcent

/-- Comparisons against a missing/`NaN` right operand are false. -/
theorem jge_none_right (x : JNum) : jge x none = false := by
  cases x <;> rfl

/-- Comparisons against a missing/`NaN` right operand are false. -/
theorem jle_none_right (x : JNum) : jle x none = false := by
  cases x <;> rfl

/-- Comparisons with a missing/`NaN` left operand are false. -/
theorem jge_none_left (y : JNum) : jge none y = false := by
  cases y <;> rfl

/-- Comparisons with a missing/`NaN` left operand are false. -/
theorem jle_none_left (y : JNum) : jle none y = false := by
  cases y <;> rfl

/-- `clusterArcs` of no records is empty for every cap. -/
theorem clusterArcs_nil (k : ℤ) : clusterArcs [] k = [] := by
  show capArcs (uncappedArcs []) k = []
  have h : uncappedArcs [] = [] := rfl
  rw [h]
  simp only [capArcs, List.length_nil, Nat.cast_zero, sortByCountDesc]
  by_cases hk : k < (0 : ℤ)
  · rw [if_pos hk]
    simp [jsSliceEnd]
  · rw [if_neg hk]

/-- Filtering by the complement of a Boolean predicate counts what the
predicate misses. -/
theorem length_filter_not_aux {α : Type} (p : α → Bool) :
    ∀ l : List α,
      (l.filter (fun x => !p x)).length = l.length - (l.filter p).length := by
  intro l
  induction l with
  | nil => rfl
  | cons a l ih =>
      have hle : (l.filter p).length ≤ l.length := List.length_filter_le p l
      cases hp : p a with
      | true =>
          simp only [List.filter_cons, hp, Bool.not_true, Bool.false_eq_true,
            if_false, if_true, List.length_cons, ih]
          omega
      | false =>
          simp only [List.filter_cons, hp, Bool.not_false, Bool.false_eq_true,
            if_false, if_true, List.length_cons, ih]
          omega

/-- C1 counterexample: `oRound`'s origin and destination coincide after
rounding to the two-decimal deduplication precision, yet `clusterArcs`
does not drop it — it appears in the members of the returned arc. -/
theorem clusterArcs_rounded_no_displacement_cx :
    specRoundedNoDisplacement oRound = true ∧
    (clusterArcs [oRound] 100).map (fun a => a.objects) = [[oRound]] := by
  with_unfolding_all decide

/-- C1 (amended): the no-displacement drop of `clusterArcs` uses exact
coordinate equality, not the rounded deduplication precision: every member
of every returned arc has raw source ≠ raw target (`sameSourceTarget`
false), while rounding is only used for the cluster key. -/
theorem clusterArcs_members_exact_displacement (objects : List MuseumObject)
    (k : ℤ) (a : ClusteredArc) (ha : a ∈ clusterArcs objects k)
    (m : MuseumObject) (hm : m ∈ a.objects) :
    sameSourceTarget m = false := by
  have ha2 : a ∈ uncappedArcs objects := capArcs_mem ha
  exact uncappedArcs_members_inv objects a ha2 m hm

/-- Witness for the amended C1 theorem at a concrete input. -/
theorem clusterArcs_members_exact_displacement_w :
    sameSourceTarget o1 = false :=
  clusterArcs_members_exact_displacement [o1] 10 arcO1
    (by with_unfolding_all decide) o1 (by decide)

/-- C2 counterexample: with `maxArcs = 0` and one displaced record,
`clusterArcs` returns the empty list, not the uncapped arc list. -/
theorem clusterArcs_nonpos_cap_cx :
    clusterArcs [o1] 0 ≠ uncappedArcs [o1] ∧
    uncappedArcs [o1] ≠ [] ∧ clusterArcs [o1] 0 = [] := by
  with_unfolding_all decide

/-- C2 (amended): `maxArcs ≤ 0` is a cap, not "no cap": the arc list is
sorted descending by count and cut with JavaScript
`slice(0, maxArcs)` semantics, so `maxArcs = 0` always yields the empty
list and a negative `maxArcs` drops arcs from the tail. -/
theorem clusterArcs_nonpos_cap_truncates (objects : List MuseumObject)
    (k : ℤ) (hk : k ≤ 0) :
    clusterArcs objects k =
      jsSliceEnd (sortByCountDesc (uncappedArcs objects)) k ∧
    clusterArcs objects 0 = [] := by
  constructor
  · show capArcs (uncappedArcs objects) k = _
    simp only [capArcs]
    by_cases hlt : k < ((uncappedArcs objects).length : ℤ)
    · rw [if_pos hlt]
    · rw [if_neg hlt]
      have hlen : (uncappedArcs objects).length = 0 := by omega
      have hnil : uncappedArcs objects = [] := List.length_eq_zero.mp hlen
      rw [hnil]
      simp [sortByCountDesc, jsSliceEnd]
  · show capArcs (uncappedArcs objects) 0 = []
    simp only [capArcs]
    by_cases hlt : (0 : ℤ) < ((uncappedArcs objects).length : ℤ)
    · rw [if_pos hlt, jsSliceEnd_nonneg le_rfl]
      simp
    · rw [if_neg hlt]
      have hlen : (uncappedArcs objects).length = 0 := by omega
      exact List.length_eq_zero.mp hlen

/-- Witness for the amended C2 theorem at a concrete input. -/
theorem clusterArcs_nonpos_cap_truncates_w :
    clusterArcs [o1] (-1) =
      jsSliceEnd (sortByCountDesc (uncappedArcs [o1])) (-1) ∧
    clusterArcs [o1] 0 = [] :=
  clusterArcs_nonpos_cap_truncates [o1] (-1) (by norm_num)

/-- C5 counterexample: with the spec's rounded reading of
"no-displacement", count conservation fails: `oRound` is rounded-equal yet
still counted in an arc, so the sum is 1 while the claimed difference is 0. -/
theorem clusterArcs_count_conservation_cx :
    sumCounts (uncappedArcs [oRound]) = 1 ∧
    (validObjects [oRound]).length = 1 ∧
    ((validObjects [oRound]).filter specRoundedNoDisplacement).length = 1 ∧
    sumCounts (uncappedArcs [oRound]) ≠
      (validObjects [oRound]).length -
        ((validObjects [oRound]).filter specRoundedNoDisplacement).length := by
  with_unfolding_all decide

/-- C5 (amended): count conservation holds with the code's exact-equality
notion of no-displacement: for uncapped object-level clustering the counts
sum to the number of valid records minus the number of valid records whose
raw source equals raw target; and any cap at least the arc-list length is
a no-op. -/
theorem clusterArcs_count_conservation (objects : List MuseumObject) :
    sumCounts (uncappedArcs objects) =
      (validObjects objects).length -
        ((validObjects objects).filter sameSourceTarget).length ∧
    ∀ k : ℤ, ((uncappedArcs objects).length : ℤ) ≤ k →
      clusterArcs objects k = uncappedArcs objects := by
  constructor
  · have h1 := sumCounts_foldl_objStep (validObjects objects) []
    have h0 : sumCounts ([] : List ClusteredArc) = 0 := rfl
    rw [h0, Nat.zero_add] at h1
    show sumCounts ((validObjects objects).foldl objStep []) = _
    rw [h1, length_filter_not_aux]
  · intro k hk
    show capArcs (uncappedArcs objects) k = uncappedArcs objects
    simp only [capArcs]
    rw [if_neg (not_lt.mpr hk)]

/-- Witness for the amended C5 theorem at a concrete input. -/
theorem clusterArcs_count_conservation_w :
    (sumCounts (uncappedArcs [o1, oSame]) =
      (validObjects [o1, oSame]).length -
        ((validObjects [o1, oSame]).filter sameSourceTarget).length) ∧
    clusterArcs [o1, oSame] 5 = uncappedArcs [o1, oSame] :=
  ⟨(clusterArcs_count_conservation [o1, oSame]).1,
    (clusterArcs_count_conservation [o1, oSame]).2 5
      (by with_unfolding_all decide)⟩

/-- C3: zoom-band dispatch of `getArcsByZoomLevel` on a nonempty record
list: `zoom ≤ 4` gives object clustering capped at 100 with no bounds
filtering; `4 < zoom ≤ 8` gives city clustering capped at 500; `zoom > 8`
first restricts the records to those whose origin lies within the given
bounds and then object-clusters with cap 2000 when `zoom ≥ 12`, else 1000. -/
theorem getArcsByZoomLevel_bands (objects : List MuseumObject) (z : ℚ)
    (bounds : Option Bounds) (hne : objects ≠ []) :
    (z ≤ 4 → getArcsByZoomLevel objects (some z) bounds =
      clusterArcs objects 100) ∧
    (4 < z → z ≤ 8 → getArcsByZoomLevel objects (some z) bounds =
      clusterArcsByCity objects 500) ∧
    (8 < z → getArcsByZoomLevel objects (some z) bounds =
      clusterArcs
        (match bounds with
          | some b => objects.filter (originInBounds b)
          | none => objects)
        (if 12 ≤ z then 2000 else 1000)) := by
  have hempty : objects.isEmpty = false := by
    cases objects with
    | nil => exact absurd rfl hne
    | cons o os => rfl
  refine ⟨?_, ?_, ?_⟩
  · intro hz
    simp only [getArcsByZoomLevel, hempty, Bool.false_eq_true, if_false, jle,
      decide_eq_true_eq]
    rw [if_pos hz]
  · intro h4 h8
    simp only [getArcsByZoomLevel, hempty, Bool.false_eq_true, if_false, jle,
      decide_eq_true_eq]
    rw [if_neg (not_le.mpr h4), if_pos h8]
  · intro hz
    have h4 : ¬ z ≤ 4 := not_le.mpr (lt_trans (by norm_num) hz)
    have h8 : ¬ z ≤ 8 := not_le.mpr hz
    simp only [getArcsByZoomLevel, hempty, Bool.false_eq_true, if_false, jle,
      jge, decide_eq_true_eq]
    rw [if_neg h4, if_neg h8]
    rfl

/-- Witness for the C3 theorem at a concrete input. -/
theorem getArcsByZoomLevel_bands_w :
    getArcsByZoomLevel [o1] (some 2) none = clusterArcs [o1] 100 :=
  (getArcsByZoomLevel_bands [o1] 2 none (by decide)).1 (by norm_num)

/-- C6: with a positive cap `k`, both clusterers return at most `k` arcs;
and when the uncapped arc list exceeds `k`, the returned arcs are exactly
the prefix of length `k` of a stable descending reordering of the uncapped
arcs: a permutation, sorted by `count` descending, in which arcs of equal
`count` keep their first-encountered order. -/
theorem clusterArcs_cap_topk (objects : List MuseumObject) (k : ℤ)
    (hk : 0 < k) :
    ((clusterArcs objects k).length : ℤ) ≤ k ∧
    ((clusterArcsByCity objects k).length : ℤ) ≤ k ∧
    (k < ((uncappedArcs objects).length : ℤ) →
      ∃ s : List ClusteredArc,
        s.Perm (uncappedArcs objects) ∧
        s.Pairwise (fun x y => y.count ≤ x.count) ∧
        (∀ c : ℕ, s.filter (fun x => decide (x.count = c)) =
          (uncappedArcs objects).filter (fun x => decide (x.count = c))) ∧
        clusterArcs objects k = s.take k.toNat) := by
  refine ⟨?_, ?_, ?_⟩
  · show ((capArcs (uncappedArcs objects) k).length : ℤ) ≤ k
    exact capArcs_length hk
  · show ((capArcs (uncappedCityArcs objects) k).length : ℤ) ≤ k
    exact capArcs_length hk
  · intro hlt
    refine ⟨sortByCountDesc (uncappedArcs objects), sortByCountDesc_perm _,
      sortByCountDesc_sorted _, fun c => sortByCountDesc_filter c _, ?_⟩
    show capArcs (uncappedArcs objects) k = _
    exact capArcs_of_lt (le_of_lt hk) hlt

/-- Witness for the C6 theorem at a concrete input (two arcs, cap 1). -/
theorem clusterArcs_cap_topk_w :
    (((clusterArcs [o1, o2, o3] 1).length : ℤ) ≤ 1) ∧
    (∃ s : List ClusteredArc,
      s.Perm (uncappedArcs [o1, o2, o3]) ∧
      s.Pairwise (fun x y => y.count ≤ x.count) ∧
      (∀ c : ℕ, s.filter (fun x => decide (x.count = c)) =
        (uncappedArcs [o1, o2, o3]).filter (fun x => decide (x.count = c))) ∧
      clusterArcs [o1, o2, o3] 1 = s.take (1 : ℤ).toNat) := by
  have h := clusterArcs_cap_topk [o1, o2, o3] 1 (by norm_num)
  exact ⟨h.1, h.2.2 (by with_unfolding_all decide)⟩

/-- C7 counterexample: a `NaN` bounds component is not "no bounds filter":
with one valid displaced record and `zoom = 9`, `NaN` south bounds empty
the result, while absent bounds keep the record's arc. -/
theorem getArcsByZoomLevel_nan_cx :
    getArcsByZoomLevel [r7] (some 9) (some bNaN) = [] ∧
    getArcsByZoomLevel [r7] (some 9) none ≠ [] := by
  with_unfolding_all decide

/-- C7 (amended): the engine is total — it never crashes — but a `NaN`
zoom falls through to the `zoom > 8` band with cap 1000 (not to the
default band), and a `NaN` bounds component makes the bounds pre-filter
reject every record, so the result is empty rather than unfiltered. -/
theorem getArcsByZoomLevel_nan_behavior (objects : List MuseumObject)
    (b : Bounds)
    (hb : b.south = none ∨ b.north = none ∨ b.west = none ∨ b.east = none) :
    objects.filter (originInBounds b) = [] ∧
    getArcsByZoomLevel objects none (some b) = [] ∧
    (∀ z : ℚ, 8 < z → getArcsByZoomLevel objects (some z) (some b) = []) ∧
    (∀ bounds : Option Bounds,
      getArcsByZoomLevel objects none bounds =
        clusterArcs
          (match bounds with
            | some b2 => objects.filter (originInBounds b2)
            | none => objects)
          1000) := by
  have hfo : ∀ o : MuseumObject, originInBounds b o = false := by
    intro o
    rcases hb with h | h | h | h
    · simp [originInBounds, h, jge_none_right]
    · simp [originInBounds, h, jle_none_right]
    · simp [originInBounds, h, jge_none_right]
    · simp [originInBounds, h, jle_none_right]
  have hfe : objects.filter (originInBounds b) = [] := by
    induction objects with
    | nil => rfl
    | cons o os ih => simp [List.filter_cons, hfo o, ih]
  refine ⟨hfe, ?_, ?_, ?_⟩
  · by_cases hobj : objects.isEmpty
    · simp [getArcsByZoomLevel, hobj]
    · have hemp : objects.isEmpty = false := Bool.eq_false_iff.mpr hobj
      simp only [getArcsByZoomLevel, hemp, Bool.false_eq_true, if_false,
        jle_none_left, jge_none_left]
      rw [hfe, clusterArcs_nil]
  · intro z hz
    by_cases hobj : objects.isEmpty
    · simp [getArcsByZoomLevel, hobj]
    · have hemp : objects.isEmpty = false := Bool.eq_false_iff.mpr hobj
      have h4 : ¬ z ≤ 4 := not_le.mpr (lt_trans (by norm_num) hz)
      have h8 : ¬ z ≤ 8 := not_le.mpr hz
      simp only [getArcsByZoomLevel, hemp, Bool.false_eq_true, if_false, jle,
        jge, decide_eq_true_eq]
      rw [if_neg h4, if_neg h8, hfe, clusterArcs_nil]
  · intro bounds
    by_cases hobj : objects.isEmpty
    · have hnil : objects = [] := by
        cases objects with
        | nil => rfl
        | cons o os => simp at hobj
      rw [hnil]
      cases bounds with
      | none => simp [getArcsByZoomLevel, clusterArcs_nil]
      | some b2 => simp [getArcsByZoomLevel, clusterArcs_nil]
    · have hemp : objects.isEmpty = false := Bool.eq_false_iff.mpr hobj
      simp only [getArcsByZoomLevel, hemp, Bool.false_eq_true, if_false,
        jle_none_left, jge_none_left]
      rfl

/-- Witness for the amended C7 theorem at a concrete input. -/
theorem getArcsByZoomLevel_nan_behavior_w :
    getArcsByZoomLevel [r7] none (some bNaN) = [] ∧
    getArcsByZoomLevel [r7] (some 9) (some bNaN) = [] := by
  have h := getArcsByZoomLevel_nan_behavior [r7] bNaN (Or.inl rfl)
  exact ⟨h.2.1, h.2.2.1 9 (by norm_num)⟩

/-- C4 counterexample: the code's centroid is not an unconditional pairwise
running average.  Three France records at `(2,48)`, `(-2,-48)`, `(4,4)`
bring the running centroid back to exactly `(0,0)`, after which the code
re-seeds: it returns centroid `(4,4)` while the claimed unconditional
pairwise average yields `(2,2)`. -/
theorem aggregateByCountry_centroid_cx :
    (aggregateByCountry [fr1, fr3, fr4]).map
        (fun a => (a.latitude, a.longitude)) = [(4, 4)] ∧
    specPairwiseAvgCentroid [(48, 2), (-48, -2), (4, 4)] = (2, 2) ∧
    ((4 : ℚ), (4 : ℚ)) ≠ ((2 : ℚ), (2 : ℚ)) := by
  with_unfolding_all decide

/-- C4 (amended): each bucket's centroid is the left fold of `centroidStep`
over that country's records: a record with truthy (non-zero, non-missing)
coordinates seeds the centroid whenever the running value is exactly
`(0, 0)` — at the start and any time the average returns there — and is
pairwise-averaged in otherwise; non-truthy coordinates never touch it.
In particular two France records at `(2,48)` and `(3,49)` yield
`(2.5, 48.5)`. -/
theorem aggregateByCountry_centroid_reseed (objects : List MuseumObject)
    (a : CountryAggregation) (ha : a ∈ aggregateByCountry objects) :
    (a.latitude, a.longitude) =
      (objects.filter (fun o => decide (countryName o = a.country))).foldl
        centroidStep (0, 0) := by
  obtain ⟨_, _, hobj, _, hcent⟩ := aggregateByCountry_mem_char ha
  rw [hcent, hobj]

/-- Witness for the amended C4 theorem: the spec's France example. -/
theorem aggregateByCountry_centroid_reseed_w :
    ((aggFr.latitude, aggFr.longitude) =
      ([fr1, fr2].filter (fun o => decide (countryName o = aggFr.country))).foldl
        centroidStep (0, 0)) ∧
    aggFr.latitude = 97 / 2 ∧ aggFr.longitude = 5 / 2 :=
  ⟨aggregateByCountry_centroid_reseed [fr1, fr2] aggFr
      (by with_unfolding_all decide),
    by with_unfolding_all decide, by with_unfolding_all decide⟩

/-- C8: no empty or missing origin-country label survives aggregation:
every bucket's label is a real country (not `"Unknown"`, not empty) and
every member record carries a present, nonempty `country_en`. -/
theorem aggregateByCountry_excludes_unlabeled (objects : List MuseumObject)
    (a : CountryAggregation) (ha : a ∈ aggregateByCountry objects) :
    a.country ≠ "Unknown" ∧ a.country ≠ "" ∧
    ∀ o ∈ a.objects,
      o.attributes.country_en ≠ none ∧ o.attributes.country_en ≠ some "" := by
  obtain ⟨hc1, hc2, hobj, _, _⟩ := aggregateByCountry_mem_char ha
  refine ⟨hc2, hc1, ?_⟩
  intro o ho
  rw [hobj] at ho
  have hoc : countryName o = a.country := by
    have := List.of_mem_filter ho
    simpa using this
  have hne : countryName o ≠ "Unknown" := by
    rw [hoc]
    exact hc2
  constructor
  · intro hnone
    apply hne
    simp [countryName, jsStrOr, hnone]
  · intro hsome
    apply hne
    simp [countryName, jsStrOr, hsome]

/-- Witness for the C8 theorem at a concrete input. -/
theorem aggregateByCountry_excludes_unlabeled_w :
    aggFr1.country ≠ "Unknown" ∧ fr1.attributes.country_en ≠ none := by
  have h := aggregateByCountry_excludes_unlabeled [fr1] aggFr1
    (by with_unfolding_all decide)
  exact ⟨h.1, (h.2.2 fr1 (by decide)).1⟩

/-- C9: every arc either clusterer returns, capped or not, carries
`count ≥ 1` and `count` equal to the length of its members list. -/
theorem arc_count_matches_members (objects : List MuseumObject) (k : ℤ)
    (a : ClusteredArc)
    (ha : a ∈ clusterArcs objects k ∨ a ∈ clusterArcsByCity objects k) :
    1 ≤ a.count ∧ a.count = a.objects.length := by
  rcases ha with h | h
  · have h2 : a ∈ uncappedArcs objects := capArcs_mem h
    obtain ⟨hlen, hpos⟩ := uncappedArcs_count_inv objects a h2
    exact ⟨hpos, hlen⟩
  · have h2 : a ∈ uncappedCityArcs objects := capArcs_mem h
    obtain ⟨hlen, hpos⟩ := uncappedCityArcs_count_inv objects a h2
    exact ⟨hpos, hlen⟩

/-- Witness for the C9 theorem at a concrete input. -/
theorem arc_count_matches_members_w :
    1 ≤ arcO1.count ∧ arcO1.count = arcO1.objects.length :=
  arc_count_matches_members [o1] 10 arcO1
    (Or.inl (by with_unfolding_all decide))

/-- C10: a record whose origin latitude or longitude is exactly `0` is
treated as having no valid coordinates for the centroid: `updateAgg` still
increments the count and appends the member but leaves the centroid
untouched; hence a bucket all of whose members have a zero coordinate
component keeps centroid `(0, 0)`. -/
theorem aggregateByCountry_zero_coordinates :
    (∀ (a : CountryAggregation) (o : MuseumObject),
      o.attributes.latitude = some 0 ∨ o.attributes.longitude = some 0 →
      updateAgg a o =
        { a with count := a.count + 1, objects := a.objects ++ [o] }) ∧
    (∀ (objects : List MuseumObject) (a : CountryAggregation),
      a ∈ aggregateByCountry objects →
      (∀ o ∈ a.objects,
        o.attributes.latitude = some 0 ∨ o.attributes.longitude = some 0) →
      a.latitude = 0 ∧ a.longitude = 0) := by
  have hstep : ∀ o : MuseumObject,
      o.attributes.latitude = some 0 ∨ o.attributes.longitude = some 0 →
      (truthy o.attributes.latitude && truthy o.attributes.longitude) = false := by
    intro o ho
    rcases ho with h | h
    · rw [h]
      simp [truthy]
    · rw [h]
      simp [truthy]
  constructor
  · intro a o ho
    simp only [updateAgg, hstep o ho, Bool.false_eq_true, if_false]
  · intro objects a ha hall
    obtain ⟨_, _, _, _, hcent⟩ := aggregateByCountry_mem_char ha
    have hfold : ∀ (l : List MuseumObject) (p : ℚ × ℚ),
        (∀ o ∈ l, o.attributes.latitude = some 0 ∨
          o.attributes.longitude = some 0) →
        l.foldl centroidStep p = p := by
      intro l
      induction l with
      | nil => intro p _; rfl
      | cons o l ih =>
          intro p hl
          rw [List.foldl_cons]
          have hco : centroidStep p o = p := by
            simp only [centroidStep, hstep o (hl o (List.mem_cons_self o l)),
              Bool.false_eq_true, if_false]
          rw [hco]
          exact ih p (fun x hx => hl x (List.mem_cons_of_mem o hx))
    have hz := hfold a.objects (0, 0) hall
    rw [hz] at hcent
    exact ⟨congrArg Prod.fst hcent, congrArg Prod.snd hcent⟩

/-- Witness for the C10 theorem at a concrete input (zero latitude). -/
theorem aggregateByCountry_zero_coordinates_w :
    (updateAgg aggFr1 frZero =
      { aggFr1 with
          count := aggFr1.count + 1
          objects := aggFr1.objects ++ [frZero] }) ∧
    (aggFrZero.latitude = 0 ∧ aggFrZero.longitude = 0) := by
  have h := aggregateByCountry_zero_coordinates
  exact ⟨h.1 aggFr1 frZero (Or.inl rfl),
    h.2 [frZero] aggFrZero (by with_unfolding_all decide) (by decide)⟩
